import Mathlib

/-!
# Verification of the hybrid intent-classification engine

A shallow embedding, in Lean 4, of the core of the `agent-tuyensinh` repository:
the Vietnamese text normaliser (`src/shared/utils/text_processing.py`), the
rule-based intent detector (`src/infrastructure/intent_detection/rule_based.py`
and `src/core/domain/entities.py`), the hybrid orchestrator
(`src/core/application/services/hybrid_intent_service.py`), the in-memory LRU/TTL
cache (`src/infrastructure/caching/memory_cache.py`), and the batch entry point.

Python strings are modelled as `List Char` (`Str`); Python floats as `ℚ`
(the code only adds, multiplies and compares scores, so exact rational
arithmetic reflects every branch decision); fallible code as `Except`;
injected collaborators (embedding service, vector store, cache backend) as
explicit oracle values.  Character-level functions (`str.lower`, `\w`, `\s`,
Unicode NFC) are modelled on the character repertoire that actually occurs in
this repository (ASCII plus the Latin-Extended letters of the checked-in
string tables); each such modelling choice is documented at its definition.
-/

namespace AgentTuyensinh

/-- Python `str` modelled as a list of characters. -/
abbrev Str := List Char

/-- Coerce a Lean string literal to `Str`. -/
def str (s : String) : Str := s.data

/-- Python `str.lower`, modelled on the ASCII range (this is Lean's
`Char.toLower`).  Every character-class decision taken by the embedded code
involves table strings whose letters outside ASCII are already caseless
fixed points of this map. -/
def pyLower (c : Char) : Char := c.toLower

/-- Lowercase a whole string (`text.lower()`). -/
def lowerStr (s : Str) : Str := s.map pyLower

/-- Python's regex class `\s` (and `str.strip`/`str.split` whitespace):
ASCII whitespace plus NBSP (U+00A0), the only non-ASCII whitespace character
occurring in this repository's string tables. -/
def isSpaceChar (c : Char) : Bool :=
  c == ' ' || c == '\t' || c == '\n' || c == '\x0d' || c == '\x0b' || c == '\x0c' ||
    c.val == 0xa0

/-- Python's regex class `\w` (with `re.UNICODE`): ASCII alphanumerics,
underscore, and letters of the Latin-1-Supplement/Latin-Extended ranges
(`U+00C0–U+024F`, `U+1E00–U+1EFF`) that cover the Vietnamese alphabet used in
the repository's tables. -/
def isWordChar (c : Char) : Bool :=
  c.isAlphanum || c == '_' || (0xC0 ≤ c.val && c.val ≤ 0x24F) ||
    (0x1E00 ≤ c.val && c.val ≤ 0x1EFF)

/-- Does `needle` occur as a contiguous substring of `hay`?  Python's
`needle in hay` (and `re.search` of a plain literal). -/
def containsSub (needle hay : Str) : Bool :=
  match hay with
  | [] => needle.isEmpty
  | _ :: t => needle.isPrefixOf hay || containsSub needle t

/-- Index of the first occurrence of `needle` in `hay`; Python `hay.find(needle)`
returns `-1` when absent, modelled as `none`. -/
def findSub (needle hay : Str) : Option Nat :=
  match hay with
  | [] => if needle.isEmpty then some 0 else none
  | _ :: t =>
    if needle.isPrefixOf hay then some 0
    else (findSub needle t).map (· + 1)

/-- Python `str.split()` with no argument: split on runs of whitespace,
discarding empty fields.  `acc` is the current token, accumulated in reverse. -/
def splitAux : Str → Str → List Str
  | acc, [] => if acc.isEmpty then [] else [acc.reverse]
  | acc, c :: t =>
    if isSpaceChar c then
      if acc.isEmpty then splitAux [] t
      else acc.reverse :: splitAux [] t
    else splitAux (c :: acc) t

/-- Python `str.split()` with no argument. -/
def splitWs (s : Str) : List Str := splitAux [] s

/-- `re.sub(r'\s+', ' ', text)`: replace each maximal whitespace run by a
single space.  `prevSp` records whether the previous character was part of a
whitespace run already replaced. -/
def squeezeAux : Bool → Str → Str
  | _, [] => []
  | prevSp, c :: t =>
    if isSpaceChar c then
      if prevSp then squeezeAux true t
      else ' ' :: squeezeAux true t
    else c :: squeezeAux false t

/-- `re.sub(r'\s+', ' ', text)`. -/
def squeezeWs (s : Str) : Str := squeezeAux false s

/-- Python `str.strip()`: drop leading and trailing whitespace. -/
def stripWs (s : Str) : Str :=
  ((s.dropWhile isSpaceChar).reverse.dropWhile isSpaceChar).reverse

/-- `re.sub(r'\s+', ' ', text).strip()` — the whitespace-collapse step of
`normalize_vietnamese`. -/
def collapseWs (s : Str) : Str := stripWs (squeezeWs s)

/-- Python's two-argument `min(a, b)`: the first argument when the two are
equal. -/
def pyMin (a b : ℚ) : ℚ := if a ≤ b then a else b

/-- `pyMin` is bounded by its first argument. -/
lemma pyMin_le_left (a b : ℚ) : pyMin a b ≤ a := by
  unfold pyMin
  split_ifs with h
  · exact le_refl a
  · exact le_of_lt (lt_of_not_le h)

/-- `pyMin` is bounded by its second argument. -/
lemma pyMin_le_right (a b : ℚ) : pyMin a b ≤ b := by
  unfold pyMin
  split_ifs with h
  · exact h
  · exact le_refl b

/-- `pyMin` of two nonnegative numbers is nonnegative. -/
lemma pyMin_nonneg (a b : ℚ) (ha : 0 ≤ a) (hb : 0 ≤ b) : 0 ≤ pyMin a b := by
  unfold pyMin
  split_ifs
  · exact ha
  · exact hb

/-- `unicodedata.normalize('NFC', text)`.  NFC is the identity on strings made
of precomposed characters; every string table checked into this repository is
already NFC, and NFC is idempotent, so the map is modelled as the identity. -/
def nfc (s : Str) : Str := s

/-- Word-boundary test on the left of a match whose first character is a word
character: succeeds at the start of the string or after a non-word character
(regex `\b`; every abbreviation key starts and ends with a word character). -/
def boundaryLeft (prev : Option Char) : Bool :=
  match prev with
  | none => true
  | some c => !isWordChar c

/-- Word-boundary test on the right of a match: succeeds at the end of the
string or before a non-word character. -/
def boundaryRight (rest : Str) : Bool :=
  match rest with
  | [] => true
  | c :: _ => !isWordChar c

/-- Worker for `subWord`, recursing on a fuel bound that always dominates the
length of the remaining text (a matched occurrence consumes at least one
character, so the fuel never runs out when started at the text's length). -/
def subWordGo (key rep : Str) : Nat → Option Char → Str → Str
  | _, _, [] => []
  | 0, _, s => s
  | fuel + 1, prev, c :: cs =>
    if key ≠ [] ∧ key.isPrefixOf (c :: cs) ∧ boundaryLeft prev = true ∧
        boundaryRight ((c :: cs).drop key.length) = true then
      rep ++ subWordGo key rep fuel key.getLast? ((c :: cs).drop key.length)
    else
      c :: subWordGo key rep fuel (some c) cs

/-- `re.compile(r'\b' + re.escape(key) + r'\b').sub(rep, s)`: replace every
non-overlapping word-bounded occurrence of the literal `key`, scanning left to
right; the replacement text is not rescanned (as in Python, scanning resumes
after the matched slice of the input).  `prev` is the character just before
the current position. -/
def subWord (key rep : Str) (prev : Option Char) (s : Str) : Str :=
  subWordGo key rep s.length prev s

/-- Worker for `hasWordMatch`, with the same recursion as `subWordGo`. -/
def hasWordGo (key : Str) : Nat → Option Char → Str → Bool
  | _, _, [] => false
  | 0, _, _ => false
  | fuel + 1, prev, c :: cs =>
    if key ≠ [] ∧ key.isPrefixOf (c :: cs) ∧ boundaryLeft prev = true ∧
        boundaryRight ((c :: cs).drop key.length) = true then
      true
    else
      hasWordGo key fuel (some c) cs

/-- Does `subWord` find at least one occurrence?  Defined by the same recursion
so that "no match" can be stated about the function itself. -/
def hasWordMatch (key : Str) (prev : Option Char) (s : Str) : Bool :=
  hasWordGo key s.length prev s

/-- The `abbreviations` table of `VietnameseTextProcessor.__init__`, in Python dict
(insertion) order: `normalize_vietnamese` applies a word-boundary substitution for
each pair in this order. -/
def abbrevPairs : List (Str × Str) := [
  (str "fpt", str "fpt university"),
  (str "fptu", str "fpt university"),
  (str "fpt edu", str "fpt university"),
  (str "cntt", str "cĆ“ng nghį» thĆ“ng tin"),
  (str "it", str "information technology"),
  (str "ai", str "artificial intelligence"),
  (str "ml", str "machine learning"),
  (str "dl", str "deep learning"),
  (str "ds", str "data science"),
  (str "cs", str "computer science"),
  (str "se", str "software engineering"),
  (str "ce", str "computer engineering"),
  (str "is", str "information systems"),
  (str "cyber", str "cybersecurity"),
  (str "attt", str "an toĆ n thĆ“ng tin"),
  (str "qtkd", str "quįŗ£n trį» kinh doanh"),
  (str "ql", str "quįŗ£n lĆ½"),
  (str "kt", str "kinh tįŗæ"),
  (str "tĆ i chĆ­nh", str "finance"),
  (str "marketing", str "digital marketing"),
  (str "dm", str "digital marketing"),
  (str "nn", str "ngoįŗ”i ngį»Æ"),
  (str "english", str "tiįŗæng anh"),
  (str "ielts", str "international english language testing system"),
  (str "toeic", str "test of english for international communication"),
  (str "ojt", str "on the job training"),
  (str "gpa", str "grade point average"),
  (str "credit", str "tĆ­n chį»"),
  (str "semester", str "hį»c kį»³"),
  (str "academic", str "hį»c thuįŗ­t"),
  (str "hanoi", str "hĆ  nį»i"),
  (str "hcm", str "thĆ nh phį» hį» chĆ­ minh"),
  (str "danang", str "ÄĆ  nįŗµng"),
  (str "cantho", str "cįŗ§n thĘ”"),
  (str "hoalac", str "hĆ²a lįŗ”c"),
  (str "quy nhon", str "quy nhĘ”n")
]

/-- The `domain_keywords` frozenset of `VietnameseTextProcessor.__init__`. -/
def domainKeywords : List Str := [
  str "fpt",
  str "university",
  str "Äįŗ”i hį»c",
  str "trĘ°į»ng",
  str "campus",
  str "sinh viĆŖn",
  str "student",
  str "giįŗ£ng viĆŖn",
  str "lecturer",
  str "professor",
  str "khoa",
  str "faculty",
  str "ngĆ nh",
  str "major",
  str "chuyĆŖn ngĆ nh",
  str "specialization",
  str "mĆ“n hį»c",
  str "course",
  str "subject",
  str "hį»c kį»³",
  str "semester",
  str "nÄm hį»c",
  str "academic year",
  str "tĆ­n chį»",
  str "credit"
]

/-- The `irrelevant_patterns` list of `VietnameseTextProcessor.__init__`. Each regex is an alternation of plain literals; it is kept as the list
of its alternatives (see `patSearch`). -/
def irrelevantPatterns : List (List Str) := [
  [str "thį»i tiįŗæt", str "weather", str "mĘ°a", str "nįŗÆng", str "lįŗ”nh", str "nĆ³ng", str "temperature", str "forecast"],
  [str "nįŗ„u Än", str "cooking", str "mĆ³n Än", str "recipe", str "phį»", str "bĆŗn", str "cĘ”m", str "food", str "cuisine"],
  [str "phim", str "movie", str "film", str "xem phim", str "cinema", str "entertainment"],
  [str "Ć¢m nhįŗ”c", str "music", str "bĆ i hĆ”t", str "song", str "concert", str "performance"],
  [str "thį» thao", str "sports", str "bĆ³ng ÄĆ”", str "football", str "basketball", str "tennis"],
  [str "chĆ­nh trį»", str "politics", str "bįŗ§u cį»­", str "election", str "government"],
  [str "tin tį»©c", str "news", str "bĆ”o", str "newspaper", str "headlines"],
  [str "mua sįŗÆm", str "shopping", str "mua", str "buy", str "bĆ”n", str "sell", str "retail"],
  [str "du lį»ch", str "travel", str "trip", str "vacation", str "nghį» mĆ”t", str "tourism"],
  [str "cĆ” cĘ°į»£c", str "betting", str "casino", str "gambling", str "lottery"],
  [str "y tįŗæ", str "medical", str "health", str "bį»nh viį»n", str "hospital", str "doctor"],
  [str "xe cį»", str "car", str "motorcycle", str "traffic", str "giao thĆ“ng"]
]

/-- The `academic_patterns` list of `VietnameseTextProcessor.__init__`. Each regex is an alternation of plain literals; it is kept as the list
of its alternatives (see `patSearch`). -/
def academicPatterns : List (List Str) := [
  [str "hį»c phĆ­", str "tuition", str "fee", str "cost", str "price", str "chi phĆ­"],
  [str "hį»c bį»ng", str "scholarship", str "financial aid"],
  [str "Äiį»m chuįŗ©n", str "admission score", str "cutoff"],
  [str "Äiį»u kiį»n", str "requirement", str "eligibility"],
  [str "thį»i gian", str "deadline", str "schedule", str "timeline"],
  [str "chĘ°Ę”ng trĆ¬nh", str "program", str "curriculum"],
  [str "ngĆ nh", str "major", str "specialization"],
  [str "campus", str "khuĆ“n viĆŖn", str "facility"],
  [str "thį»±c tįŗ­p", str "internship", str "ojt"],
  [str "viį»c lĆ m", str "career", str "job", str "employment"]
]

/-- The `program_patterns` list local to `extract_academic_context`. Each regex is an alternation of plain literals; it is kept as the list
of its alternatives (see `patSearch`). -/
def programPatterns : List (List Str) := [
  [str "cĆ“ng nghį» thĆ“ng tin", str "information technology", str "it"],
  [str "trĆ­ tuį» nhĆ¢n tįŗ”o", str "artificial intelligence", str "ai"],
  [str "kį»¹ thuįŗ­t phįŗ§n mį»m", str "software engineering", str "se"],
  [str "quįŗ£n trį» kinh doanh", str "business administration", str "mba"],
  [str "thiįŗæt kįŗæ Äį» hį»a", str "graphic design", str "gd"],
  [str "digital marketing", str "marketing"],
  [str "an toĆ n thĆ“ng tin", str "cybersecurity", str "security"],
  [str "khoa hį»c dį»Æ liį»u", str "data science", str "ds"]
]

/-- The `campus_patterns` list local to `extract_academic_context`. Each regex is an alternation of plain literals; it is kept as the list
of its alternatives (see `patSearch`). -/
def campusPatterns : List (List Str) := [
  [str "hĆ  nį»i", str "hanoi"],
  [str "thĆ nh phį» hį» chĆ­ minh", str "hcm", str "ho chi minh"],
  [str "ÄĆ  nįŗµng", str "danang"],
  [str "cįŗ§n thĘ”", str "cantho"],
  [str "hĆ²a lįŗ”c", str "hoalac"],
  [str "quy nhĘ”n", str "quy nhon"]
]


/-- `VietnameseTextProcessor.normalize_vietnamese` on `Str`: lowercase, Unicode
NFC, whitespace collapse, then word-boundary abbreviation expansion applied for
each `abbrevPairs` entry in order.  (The patterns are compiled with
`re.IGNORECASE`, but they are applied to text this function has already
lowercased, so the match is modelled literally.) -/
def normalizeStr (s : Str) : Str :=
  abbrevPairs.foldl (fun t kv => subWord kv.1 kv.2 none t)
    (collapseWs (nfc (lowerStr s)))

/-- `VietnameseTextProcessor.normalize_vietnamese` (empty input short-circuits
to the empty string, which `normalizeStr` also sends to itself). -/
def normalize_vietnamese (s : String) : String :=
  String.mk (normalizeStr s.data)

/-- `re.search` of one of the repository's alternation-of-literals patterns,
compiled with `re.IGNORECASE`: some alternative occurs as a substring,
case-insensitively. -/
def patSearch (alts : List Str) (text : Str) : Bool :=
  alts.any (fun lit => containsSub (lowerStr lit) (lowerStr text))

/-- The academic-context dictionary built by `extract_academic_context`
(`financial_terms` and `temporal_terms` are declared but never filled by the
code).  `findall` on an alternation of plain literals returns one entry per
occurrence; only which patterns fire is recorded here (the list of alternatives
of each firing pattern), which determines emptiness of each field — the only
property any caller reads. -/
structure AcademicContext where
  academic_terms : List Str
  programs : List Str
  campuses : List Str
  financial_terms : List Str
  temporal_terms : List Str

/-- `VietnameseTextProcessor.extract_academic_context`. -/
def extract_academic_context (text : Str) : AcademicContext :=
  let normalized := normalizeStr text
  { academic_terms :=
      (academicPatterns.filter (fun p => patSearch p normalized)).flatten
    programs :=
      (programPatterns.filter (fun p => patSearch p normalized)).filterMap
        List.head?
    campuses :=
      (campusPatterns.filter (fun p => patSearch p normalized)).filterMap
        List.head?
    financial_terms := []
    temporal_terms := [] }

/-- Python `any(context.values())`: is any of the five lists non-empty? -/
def AcademicContext.anyNonempty (c : AcademicContext) : Bool :=
  !c.academic_terms.isEmpty || !c.programs.isEmpty || !c.campuses.isEmpty ||
    !c.financial_terms.isEmpty || !c.temporal_terms.isEmpty

/-- `VietnameseTextProcessor.is_irrelevant_query`: empty or too-short text is
irrelevant; any academic-context match makes the text relevant; otherwise the
off-topic pattern set decides (searched on the raw, un-normalised text). -/
def is_irrelevant_query (text : Str) : Bool :=
  if text.isEmpty then true
  else if (stripWs text).length < 3 then true
  else if (extract_academic_context text).anyNonempty then false
  else irrelevantPatterns.any (fun p => patSearch p text)

/-- `VietnameseTextProcessor.clean_query`: replace every character outside
`[\w\s\u00C0-\u024F\u1E00-\u1EFF]` by a space, then normalise. -/
def clean_query (text : Str) : Str :=
  normalizeStr (text.map (fun c =>
    if isWordChar c || isSpaceChar c ||
        (0xC0 ≤ c.val && c.val ≤ 0x24F) || (0x1E00 ≤ c.val && c.val ≤ 0x1EFF)
    then c else ' '))


/-! ## Domain entities (`core/domain/entities.py`) and the rule-based detector
(`infrastructure/intent_detection/rule_based.py`) -/

/-- A compiled regex of an `IntentRule`, kept with its source string (the code
stores `patterns` as strings and `_compiled_patterns` as compiled objects).
The compiled object is modelled as its search function, returning the start
index of the first match, if any. -/
structure RegexPat where
  src : Str
  search : Str → Option Nat

/-- `IntentRule` (the `weight ∈ [0.1, 2.0]` bound is enforced by
`__post_init__` and carried as a hypothesis where a claim needs it;
`metadata` is unused by the embedded code paths and omitted). -/
structure IntentRule where
  intent_id : String
  keywords : List Str
  patterns : List RegexPat
  weight : ℚ := 1
  description : String := ""
  negative_keywords : List Str := []
  priority : String := "medium"
  enabled : Bool := true

/-- `IntentRule.priority_weight`: `{"high": 1.2, "medium": 1.0, "low": 0.8}`
with default `1.0`. -/
def IntentRule.priority_weight (r : IntentRule) : ℚ :=
  if r.priority = "high" then 12/10
  else if r.priority = "medium" then 1
  else if r.priority = "low" then 8/10
  else 1

/-- `IntentRule.matches_keywords`: the keywords occurring (lowercased,
as substrings) in the lowercased text. -/
def IntentRule.matches_keywords (r : IntentRule) (text : Str) : List Str :=
  let text_lower := lowerStr text
  r.keywords.filter (fun kw => containsSub (lowerStr kw) text_lower)

/-- `IntentRule.matches_patterns`: the source strings of the compiled patterns
that match the text. -/
def IntentRule.matches_patterns (r : IntentRule) (text : Str) : List Str :=
  (r.patterns.filter (fun p => (p.search text).isSome)).map RegexPat.src

/-- `IntentRule.has_negative_keywords`: some negative keyword occurs
(lowercased, as a substring) in the lowercased text. -/
def IntentRule.has_negative_keywords (r : IntentRule) (text : Str) : Bool :=
  let text_lower := lowerStr text
  r.negative_keywords.any (fun nk => containsSub (lowerStr nk) text_lower)

/-- `RuleMatch` (entities.py). -/
structure RuleMatch where
  intent_id : String
  score : ℚ
  matched_keywords : List Str
  matched_patterns : List Str
  weight : ℚ
  position : Nat := 0
  rule_metadata : List (String × String) := []
deriving DecidableEq, Repr

/-- `RuleBasedDetectorImpl._calculate_score`: keyword matches contribute
`0.4·weight` each, pattern matches `0.6·weight` each; the sum is multiplied by
the priority weight, by a 10%-per-extra-match combination bonus, and by a
5%-per-exact-word bonus (a matched keyword is exact when its lowercased form is
one of the whitespace-split tokens of the lowercased query); the result is
capped at `1.0`. -/
def calculate_score (rule : IntentRule) (matched_keywords matched_patterns : List Str)
    (query : Str) : ℚ :=
  let score0 : ℚ := 0
  let score1 :=
    if matched_keywords ≠ [] then
      score0 + matched_keywords.length * (4/10) * rule.weight
    else score0
  let score2 :=
    if matched_patterns ≠ [] then
      score1 + matched_patterns.length * (6/10) * rule.weight
    else score1
  let score3 := score2 * rule.priority_weight
  let total_matches := matched_keywords.length + matched_patterns.length
  let score4 :=
    if total_matches > 1 then score3 * (1 + (total_matches - 1) * (1/10))
    else score3
  let query_words := splitWs (lowerStr query)
  let exact_matches :=
    (matched_keywords.filter (fun kw => query_words.contains (lowerStr kw))).length
  let score5 :=
    if exact_matches > 0 then score4 * (1 + exact_matches * (5/100))
    else score4
  pyMin score5 1

/-- The number of matched keywords `_calculate_score` counts as exact-word
matches: those whose lowercased form is a member of `query.lower().split()`. -/
def exactWordCount (matched_keywords : List Str) (query : Str) : Nat :=
  (matched_keywords.filter
    (fun kw => (splitWs (lowerStr query)).contains (lowerStr kw))).length

/-- `RuleBasedDetectorImpl._find_first_match_position`: minimum of the first
occurrence indices of the matched keywords, and of the first ten characters of
the matched pattern sources, in the lowercased query; `0` when nothing is
found. -/
def find_first_match_position (query : Str) (matched_keywords matched_patterns : List Str) :
    Nat :=
  let ql := lowerStr query
  let positions :=
    matched_keywords.filterMap (fun kw => findSub (lowerStr kw) ql) ++
      matched_patterns.filterMap (fun p => findSub ((lowerStr p).take 10) ql)
  (positions.minimum?).getD 0

/-- `RuleBasedDetectorImpl._match_rule` (the `original_query` argument is
passed by the source but never used there). -/
def match_rule (rule : IntentRule) (normalized_query : Str) (orig_query : Str) :
    Option RuleMatch :=
  if rule.has_negative_keywords normalized_query then none
  else
    let mk := rule.matches_keywords normalized_query
    let mp := rule.matches_patterns normalized_query
    if mk ≠ [] ∨ mp ≠ [] then
      some { intent_id := rule.intent_id
             score := calculate_score rule mk mp normalized_query
             matched_keywords := mk
             matched_patterns := mp
             weight := rule.weight
             position := find_first_match_position normalized_query mk mp
             rule_metadata := [("rule_priority", rule.priority),
                               ("rule_description", rule.description)] }
    else none

/-- The sort applied once in `RuleBasedDetectorImpl.__init__`:
`rules.sort(key=lambda r: (r.priority_weight, r.weight), reverse=True)` —
stable, descending on the lexicographic pair. -/
def sortRules (rules : List IntentRule) : List IntentRule :=
  rules.mergeSort (fun a b =>
    b.priority_weight < a.priority_weight ||
      (b.priority_weight == a.priority_weight && b.weight ≤ a.weight))

/-- The scan of `RuleBasedDetectorImpl.detect`: disabled rules are skipped, a
match replaces the current best exactly when its score is strictly larger, and
the scan stops early once the best score reaches `early_exit_threshold`. -/
def detectScan (nq oq : Str) (threshold : ℚ) :
    List IntentRule → Option RuleMatch → ℚ → Option RuleMatch
  | [], best, _ => best
  | r :: rs, best, best_score =>
    if !r.enabled then detectScan nq oq threshold rs best best_score
    else
      match match_rule r nq oq with
      | some m =>
        if m.score > best_score then
          if m.score ≥ threshold then some m
          else detectScan nq oq threshold rs (some m) m.score
        else detectScan nq oq threshold rs best best_score
      | none => detectScan nq oq threshold rs best best_score

/-- `RuleBasedDetectorImpl.detect` for a detector built with rule list `rules`
and threshold `early_exit_threshold` (default `0.9`): clean and normalise the
query, then scan the pre-sorted rules. -/
def rule_detect (rules : List IntentRule) (early_exit_threshold : ℚ) (query : Str) :
    Option RuleMatch :=
  let cleaned := clean_query query
  let normalized := normalizeStr cleaned
  detectScan normalized query early_exit_threshold (sortRules rules) none 0


/-! ## Hybrid orchestrator (`core/application/services/hybrid_intent_service.py`) -/

/-- `shared.types.DetectionMethod`. -/
inductive DetectionMethod
  | rule | vector | rerank | hybrid | fallback
deriving DecidableEq, Repr

/-- A metadata value (`Metadata = Dict[str, Any]`; only these shapes occur in
the embedded code paths). -/
inductive MetaVal
  | boolV (b : Bool)
  | strV (s : String)
  | numV (q : ℚ)
  | natV (n : Nat)
  | strsV (l : List String)
deriving DecidableEq, Repr

/-- `Metadata` as an association list in insertion order. -/
abbrev Metadata := List (String × MetaVal)

/-- `IntentResult` (entities.py); `category` defaults to `None` and `timestamp`
is wall-clock noise, both unused by every embedded decision, and omitted. -/
structure IntentResult where
  id : String
  confidence : ℚ
  method : DetectionMethod
  metadata : Metadata := []
deriving DecidableEq, Repr

/-- Metadata lookup (`result.metadata.get(key)`). -/
def IntentResult.metaLookup (r : IntentResult) (key : String) : Option MetaVal :=
  r.metadata.lookup key

/-- `HybridConfig` with its source defaults. -/
structure HybridConfig where
  rule_high_confidence_threshold : ℚ := 7/10
  rule_medium_confidence_threshold : ℚ := 3/10
  early_exit_threshold : ℚ := 8/10
  vector_confidence_threshold : ℚ := 6/10
  vector_top_k : Nat := 3
  enable_caching : Bool := true
  cache_ttl_seconds : ℚ := 600
  cache_min_confidence : ℚ := 5/10

/-- `SearchCandidate` (entities.py; `metadata` unused by the embedded paths). -/
structure SearchCandidate where
  text : Str
  intent_id : String
  score : ℚ
  source : String := "unknown"

/-- `HybridIntentDetectionService._create_rule_result`. -/
def create_rule_result (m : RuleMatch) (method : DetectionMethod) : IntentResult :=
  { id := m.intent_id
    confidence := m.score
    method := method
    metadata := [("matched_keywords", .strsV (m.matched_keywords.map String.mk)),
                 ("matched_patterns", .strsV (m.matched_patterns.map String.mk)),
                 ("rule_weight", .numV m.weight)] }

/-- `HybridIntentDetectionService._create_fallback_result`. -/
def create_fallback_result (confidence : ℚ) (method : DetectionMethod) : IntentResult :=
  { id := "unknown"
    confidence := confidence
    method := method
    metadata := [("fallback", .boolV true), ("reason", .strV "no_intent_detected")] }

/-- `HybridIntentDetectionService._select_best_result`.  The four cases on the
two optional arguments each replay the source's guard sequence verbatim; a
guard mentioning an absent value is dropped because Python short-circuits it
to false. -/
def select_best_result (cfg : HybridConfig) (rule_match : Option RuleMatch)
    (vector_result : Option IntentResult) : IntentResult :=
  match rule_match, vector_result with
  | some m, some v =>
    if m.score ≥ cfg.early_exit_threshold then create_rule_result m .rule
    else if v.confidence ≥ cfg.vector_confidence_threshold then
      if m.score ≥ cfg.rule_high_confidence_threshold then
        if v.confidence > m.score then v else create_rule_result m .hybrid
      else v
    else if m.score ≥ cfg.rule_high_confidence_threshold then create_rule_result m .rule
    else if m.score ≥ cfg.rule_medium_confidence_threshold then create_rule_result m .rule
    else v
  | some m, none =>
    if m.score ≥ cfg.early_exit_threshold then create_rule_result m .rule
    else if m.score ≥ cfg.rule_high_confidence_threshold then create_rule_result m .rule
    else if m.score ≥ cfg.rule_medium_confidence_threshold then create_rule_result m .rule
    else create_fallback_result (2/10) .fallback
  | none, some v => v
  | none, none => create_fallback_result (2/10) .fallback

/-- The injected collaborators `_vector_search` talks to, as oracles:
`vector_search_enabled` is the availability flag computed in `__init__`
(when it is true both services are present, so the two inner presence guards
of `_vector_search` are dead); `embed_text` is the outcome of
`embedding_service.embed_text` (an exception, or a possibly-falsy embedding);
`search` is the outcome of `vector_store.search` (already `top_k` and
threshold limited by the store). -/
structure VectorDeps where
  vector_search_enabled : Bool
  embed_text : Except Unit (Option (List ℚ))
  search : Except Unit (List SearchCandidate)

/-- `HybridIntentDetectionService._vector_search`: any exception inside the
body is re-raised as `VectorSearchError` (the `.error` case); a missing or
falsy embedding, or an empty candidate list, yields no result; the top
candidate's score is boosted by `×1.1` capped at `0.95` when it is `≥ 0.9`. -/
def vector_search (deps : VectorDeps) : Except Unit (Option IntentResult) :=
  if !deps.vector_search_enabled then .ok none
  else
    match deps.embed_text with
    | .error _ => .error ()
    | .ok none => .ok none
    | .ok (some emb) =>
      if emb.isEmpty then .ok none
      else
        match deps.search with
        | .error _ => .error ()
        | .ok [] => .ok none
        | .ok (best :: rest) =>
          let adjusted :=
            if best.score ≥ 9/10 then pyMin (95/100) (best.score * (11/10))
            else best.score
          .ok (some
            { id := best.intent_id
              confidence := adjusted
              method := .vector
              metadata :=
                [("vector_score", .numV best.score),
                 ("source_text", .strV (String.mk (best.text.take 100))),
                 ("candidates_count", .natV (best :: rest).length),
                 ("confidence_adjusted", .boolV (decide (adjusted ≠ best.score)))] })

/-- The collaborators of `detect_intent`, as oracles: the query inside the
`DetectionContext`, whether a cache service was injected, and the outcomes of
the cache read, the rule detector, the vector pipeline, and the cache write.
An `.error` value models that call raising. -/
structure HybridDeps where
  query : Str
  has_cache_service : Bool
  cache_get : Except Unit (Option IntentResult)
  rule_detect : Except Unit (Option RuleMatch)
  vector : VectorDeps
  cache_set : Except Unit Unit

/-- The `try` body of `HybridIntentDetectionService.detect_intent`: cache
lookup (served only at `cache_min_confidence`), irrelevance short-circuit,
rule detection, vector search unless the rule score already meets
`early_exit_threshold`, arbitration, conditional cache write. -/
def detect_intent_body (cfg : HybridConfig) (deps : HybridDeps) :
    Except Unit IntentResult := do
  let cached ←
    if cfg.enable_caching && deps.has_cache_service then deps.cache_get
    else pure none
  match cached with
  | some c =>
    if c.confidence ≥ cfg.cache_min_confidence then return c
  | none => pure ()
  if is_irrelevant_query deps.query then
    return create_fallback_result (1/10) .fallback
  let rule_match ← deps.rule_detect
  let vector_result ←
    if rule_match.all (fun m => m.score < cfg.early_exit_threshold) then
      vector_search deps.vector
    else pure none
  let best := select_best_result cfg rule_match vector_result
  if best.confidence ≥ cfg.cache_min_confidence then
    if deps.has_cache_service && cfg.enable_caching then deps.cache_set
  return best

/-- `HybridIntentDetectionService.detect_intent`: the `try` body under its
catch-all `except` clauses, every one of which returns the universal fallback
result with confidence `0.1`. -/
def detect_intent (cfg : HybridConfig) (deps : HybridDeps) : IntentResult :=
  match detect_intent_body cfg deps with
  | .ok r => r
  | .error _ => create_fallback_result (1/10) .fallback

/-! ## In-memory cache (`infrastructure/caching/memory_cache.py`) -/

/-- `MemoryCacheService` state: the `OrderedDict` as a list of
`(key, value, expiry_time)` triples whose head is the least recently used
entry, plus the statistics counters. -/
structure MemoryCacheState (α : Type) where
  max_size : Nat := 1000
  default_ttl : ℚ := 300
  entries : List (String × α × ℚ) := []
  hits : Nat := 0
  misses : Nat := 0
  sets : Nat := 0
  deletes : Nat := 0
  evictions : Nat := 0
  expired : Nat := 0

/-- The keys of the cache, in recency order (head = least recently used). -/
def MemoryCacheState.keys {α} (s : MemoryCacheState α) : List String :=
  s.entries.map (fun e => e.1)

/-- `MemoryCacheService.get` at wall-clock time `now`: an expired entry is
purged and reported absent; a live hit is promoted to most recently used
(`move_to_end`). -/
def cache_get {α} (now : ℚ) (key : String) (s : MemoryCacheState α) :
    Option α × MemoryCacheState α :=
  match s.entries.find? (fun e => e.1 == key) with
  | some (_, v, expiry) =>
    if now > expiry then
      (none, { s with entries := s.entries.eraseP (fun e => e.1 == key),
                      expired := s.expired + 1, misses := s.misses + 1 })
    else
      (some v, { s with entries := s.entries.eraseP (fun e => e.1 == key) ++
                          [(key, v, expiry)],
                        hits := s.hits + 1 })
  | none => (none, { s with misses := s.misses + 1 })

/-- `MemoryCacheService.set` at wall-clock time `now`.  `ttl_seconds or
default_ttl` means a `None` or zero TTL falls back to the default.  When the
key is new and the cache is full, the head (least recently used) entry is
evicted first; on an empty full cache (`max_size = 0`) the `next(iter(...))`
raises `StopIteration`, the catch-all swallows it, and the state is unchanged.
The assignment plus `move_to_end` places the entry at the most recent end. -/
def cache_set {α} (now : ℚ) (key : String) (v : α) (ttl_seconds : Option ℚ)
    (s : MemoryCacheState α) : MemoryCacheState α :=
  let ttl := match ttl_seconds with
    | none => s.default_ttl
    | some t => if t = 0 then s.default_ttl else t
  let expiry := now + ttl
  if (s.entries.find? (fun e => e.1 == key)).isNone ∧ s.entries.length ≥ s.max_size then
    match s.entries with
    | [] => s
    | _ :: rest =>
      { s with entries := rest ++ [(key, v, expiry)],
               evictions := s.evictions + 1, sets := s.sets + 1 }
  else
    { s with entries := s.entries.eraseP (fun e => e.1 == key) ++ [(key, v, expiry)],
             sets := s.sets + 1 }

/-! ## Batch entry point -/

/-- Modelled from the spec: `detect_batch_queries` (called by
`BatchProcessor.process_queries` and `demo.py` but absent from the source
tree).  Per §4.6 of the spec it runs one detection task per query,
concurrently bounded by a semaphore of size `max_concurrent`; tasks finish in
an arbitrary completion order, each failed task degrades independently to the
universal fallback result, and the collected results are placed at their
query's input index.  `outcome i` is the i-th task's outcome and `order` the
completion order (a permutation of the indices); `max_concurrent` bounds how
many tasks are in flight at once and cannot affect which results are
produced, only their timing. -/
def detect_batch_queries (outcome : Nat → Except Unit IntentResult)
    (queries : List String) (max_concurrent : Nat) (order : List Nat) :
    List IntentResult :=
  let finished : List (Nat × IntentResult) :=
    order.map (fun i =>
      (i, match outcome i with
          | .ok r => r
          | .error _ => create_fallback_result (1/10) .fallback))
  (List.range queries.length).filterMap (fun i => finished.lookup i)


/-! ## Helper lemmas -/

/-- `priority_weight` only takes the values `1.2`, `1.0`, `0.8`. -/
lemma priority_weight_nonneg (r : IntentRule) : 0 ≤ r.priority_weight := by
  unfold IntentRule.priority_weight
  split_ifs <;> norm_num

/-- `_calculate_score` as a closed formula: base contributions times priority
weight times the two bonus factors, capped at `1`. -/
lemma calculate_score_eq (rule : IntentRule) (mk mp : List Str) (q : Str) :
    calculate_score rule mk mp q =
      pyMin
        (((if mk ≠ [] then (mk.length : ℚ) * (4/10) * rule.weight else 0) +
            (if mp ≠ [] then (mp.length : ℚ) * (6/10) * rule.weight else 0)) *
          rule.priority_weight *
          (if mk.length + mp.length > 1 then
            1 + (((mk.length : ℚ) + (mp.length : ℚ)) - 1) * (1/10) else 1) *
          (if 0 < exactWordCount mk q then
            1 + (exactWordCount mk q : ℚ) * (5/100) else 1))
        1 := by
  simp only [calculate_score, exactWordCount]
  split_ifs <;> push_cast <;> ring_nf

/-- The two bonus factors and the base sum are nonnegative whenever the rule
weight is. -/
lemma calculate_score_nonneg (rule : IntentRule) (mk mp : List Str) (q : Str)
    (hw : 0 ≤ rule.weight) : 0 ≤ calculate_score rule mk mp q := by
  rw [calculate_score_eq]
  refine pyMin_nonneg _ _ ?_ zero_le_one
  have h1 : 0 ≤ (if mk ≠ [] then (mk.length : ℚ) * (4/10) * rule.weight else 0) := by
    split_ifs
    · exact mul_nonneg (mul_nonneg (Nat.cast_nonneg _) (by norm_num)) hw
    · exact le_refl 0
  have h2 : 0 ≤ (if mp ≠ [] then (mp.length : ℚ) * (6/10) * rule.weight else 0) := by
    split_ifs
    · exact mul_nonneg (mul_nonneg (Nat.cast_nonneg _) (by norm_num)) hw
    · exact le_refl 0
  have h3 : 0 ≤ (if mk.length + mp.length > 1 then
      1 + (((mk.length : ℚ) + (mp.length : ℚ)) - 1) * (1/10) else 1) := by
    split_ifs with hc
    · have h5 : (1 : ℚ) ≤ (mk.length : ℚ) + (mp.length : ℚ) := by
        have h6 : 1 ≤ mk.length + mp.length := by omega
        exact_mod_cast h6
      linarith
    · norm_num
  have h4 : 0 ≤ (if 0 < exactWordCount mk q then
      1 + (exactWordCount mk q : ℚ) * (5/100) else 1) := by
    split_ifs
    · positivity
    · norm_num
  exact mul_nonneg (mul_nonneg (mul_nonneg (add_nonneg h1 h2)
    (priority_weight_nonneg rule)) h3) h4

/-- The clamp: `_calculate_score` never exceeds `1`. -/
lemma calculate_score_le_one (rule : IntentRule) (mk mp : List Str) (q : Str) :
    calculate_score rule mk mp q ≤ 1 := by
  rw [calculate_score_eq]
  exact pyMin_le_right _ _

/-- The score a `RuleMatch` returned by `_match_rule` carries is exactly
`_calculate_score` of its matched keyword and pattern lists. -/
lemma match_rule_score (rule : IntentRule) (nq oq : Str) (m : RuleMatch)
    (h : match_rule rule nq oq = some m) :
    m.score = calculate_score rule (rule.matches_keywords nq)
      (rule.matches_patterns nq) nq := by
  simp only [match_rule] at h
  split at h
  · simp at h
  · split at h
    · rw [Option.some.injEq] at h
      subst h
      rfl
    · simp at h



/-- `Char.ofNat` of a scalar value below the surrogate range decodes back to
itself. -/
lemma toNat_ofNat_small (n : ℕ) (h : n < 0xd800) : (Char.ofNat n).toNat = n := by
  unfold Char.ofNat
  rw [dif_pos (Or.inl h)]
  simp [Char.ofNatAux, Char.toNat, UInt32.toNat]

/-- Lowercasing a character twice is the same as lowercasing it once. -/
lemma pyLower_idem (c : Char) : pyLower (pyLower c) = pyLower c := by
  unfold pyLower Char.toLower
  simp only []
  by_cases h : c.toNat ≥ 65 ∧ c.toNat ≤ 90
  · rw [if_pos h]
    have h2 : (Char.ofNat (c.toNat + 32)).toNat = c.toNat + 32 :=
      toNat_ofNat_small _ (by omega)
    rw [if_neg (by omega)]
  · rw [if_neg h, if_neg h]

/-- Whitespace characters are fixed points of `pyLower`. -/
lemma pyLower_of_space (c : Char) (h : isSpaceChar c = true) : pyLower c = c := by
  have hn : ¬(c.toNat ≥ 65 ∧ c.toNat ≤ 90) := by
    simp only [isSpaceChar, Bool.or_eq_true, beq_iff_eq] at h
    rcases h with ((((((h | h) | h) | h) | h) | h) | h)
    · subst h; decide
    · subst h; decide
    · subst h; decide
    · subst h; decide
    · subst h; decide
    · subst h; decide
    · have hv : c.toNat = 160 := by
        simp only [Char.toNat, h]
        rfl
      omega
  simp only [pyLower, Char.toLower]
  rw [if_neg hn]

/-- Tokens produced by `splitAux` contain no whitespace character, provided
the accumulated partial token contains none. -/
lemma mem_splitAux_no_space (s : Str) :
    ∀ acc, (∀ c ∈ acc, isSpaceChar c = false) →
      ∀ t ∈ splitAux acc s, ∀ c ∈ t, isSpaceChar c = false := by
  induction s with
  | nil =>
    intro acc hacc t ht c hc
    by_cases he : acc.isEmpty
    · simp [splitAux, he] at ht
    · rw [splitAux, if_neg he, List.mem_singleton] at ht
      subst ht
      exact hacc c (List.mem_reverse.mp hc)
  | cons d r ih =>
    intro acc hacc t ht c hc
    by_cases hd : isSpaceChar d = true
    · by_cases he : acc.isEmpty
      · rw [splitAux, if_pos hd, if_pos he] at ht
        exact ih [] (by simp) t ht c hc
      · rw [splitAux, if_pos hd, if_neg he] at ht
        rcases List.mem_cons.mp ht with h | h
        · subst h
          exact hacc c (List.mem_reverse.mp hc)
        · exact ih [] (by simp) t h c hc
    · rw [splitAux, if_neg hd] at ht
      refine ih (d :: acc) ?_ t ht c hc
      intro e he
      rcases List.mem_cons.mp he with h | h
      · subst h
        exact Bool.not_eq_true _ ▸ eq_false_of_ne_true hd
      · exact hacc e h

/-- Tokens produced by `splitWs` contain no whitespace character. -/
lemma mem_splitWs_no_space (s : Str) :
    ∀ t, t ∈ splitWs s → ∀ c ∈ t, isSpaceChar c = false := by
  intro t ht c hc
  exact mem_splitAux_no_space s [] (by simp) t ht c hc

/-- A keyword containing a whitespace character is never a whitespace-split
token of any query (its lowercased form still contains that whitespace). -/
lemma space_keyword_not_token (kw : Str) (q : Str)
    (hsp : kw.any isSpaceChar = true) :
    lowerStr kw ∉ splitWs (lowerStr q) := by
  intro hmem
  rcases List.any_eq_true.mp hsp with ⟨c, hc, hcsp⟩
  have hc2 : c ∈ lowerStr kw := by
    have : pyLower c = c := pyLower_of_space c hcsp
    exact this ▸ List.mem_map_of_mem pyLower hc
  have := mem_splitWs_no_space (lowerStr q) (lowerStr kw) hmem c hc2

  rw [this] at hcsp
  exact Bool.false_ne_true hcsp

/-! ## Claim theorems -/

/-- **C6** — Rule score is always in `[0, 1]`: for every rule whose weight
lies in the `[0.1, 2.0]` interval enforced at construction and every pair of
matched keyword/pattern lists and query, `_calculate_score` is nonnegative and
clamped to at most `1.0`, and therefore the score carried by any `RuleMatch`
returned by `_match_rule` lies in `[0, 1]`. -/
theorem c6_rule_score_clamped (rule : IntentRule) (mk mp : List Str) (q : Str)
    (hw₁ : 1/10 ≤ rule.weight) (hw₂ : rule.weight ≤ 2) :
    (0 ≤ calculate_score rule mk mp q ∧ calculate_score rule mk mp q ≤ 1) ∧
    ∀ nq oq m, match_rule rule nq oq = some m → 0 ≤ m.score ∧ m.score ≤ 1 := by
  have hw : (0 : ℚ) ≤ rule.weight := le_trans (by norm_num) hw₁
  refine ⟨⟨calculate_score_nonneg _ _ _ _ hw, calculate_score_le_one _ _ _ _⟩, ?_⟩
  intro nq oq m h
  rw [match_rule_score rule nq oq m h]
  exact ⟨calculate_score_nonneg _ _ _ _ hw, calculate_score_le_one _ _ _ _⟩

/-- A concrete rule used to witness C6. -/
def c6Rule : IntentRule :=
  { intent_id := "tuition_inquiry"
    keywords := [str "fee"]
    patterns := []
    weight := 14/10 }

/-- Witness for C6 at a concrete rule (weight `1.4`), matched keyword list and
query. -/
theorem c6_rule_score_clamped_witness :
    (1/10 ≤ c6Rule.weight ∧ c6Rule.weight ≤ 2) ∧
      0 ≤ calculate_score c6Rule [str "fee"] [] (str "fee now") ∧
      calculate_score c6Rule [str "fee"] [] (str "fee now") ≤ 1 :=
  ⟨⟨by norm_num [c6Rule], by norm_num [c6Rule]⟩,
    (c6_rule_score_clamped c6Rule [str "fee"] [] (str "fee now")
      (by norm_num [c6Rule]) (by norm_num [c6Rule])).1⟩

/-- **C7** — Vector confidence boost applies only to the top candidate and is
capped: whenever `_vector_search` returns a result, the vector store returned
a non-empty candidate list, the result's confidence is the top candidate's raw
score boosted by `×1.1` and capped at `0.95` exactly when that score is
`≥ 0.9` (and the raw score unchanged otherwise), the result's method is
`VECTOR`, and the confidence is strictly below `1`. -/
theorem c7_vector_confidence_boost (deps : VectorDeps) (r : IntentResult)
    (h : vector_search deps = .ok (some r)) :
    ∃ best rest, deps.search = .ok (best :: rest) ∧
      r.confidence =
        (if best.score ≥ 9/10 then pyMin (95/100) (best.score * (11/10))
          else best.score) ∧
      r.method = .vector ∧ r.confidence < 1 := by
  unfold vector_search at h
  split at h
  · simp at h
  · split at h
    · simp at h
    · simp at h
    · rename_i emb
      split at h
      · simp at h
      · split at h
        · simp at h
        · simp at h
        · rename_i best rest hsearch
          simp only [Except.ok.injEq, Option.some.injEq] at h
          subst h
          refine ⟨best, rest, hsearch, rfl, rfl, ?_⟩
          simp only []
          split_ifs with hb
          · calc pyMin ((95 : ℚ)/100) (best.score * (11/10)) ≤ 95/100 :=
                pyMin_le_left _ _
              _ < 1 := by norm_num
          · have : best.score < 9/10 := not_le.mp hb
            linarith

/-- Witness for C7: a concrete dependency bundle whose store returns one
candidate with raw score `0.92`. -/
theorem c7_vector_confidence_boost_witness :
    vector_search
        { vector_search_enabled := true
          embed_text := .ok (some [1])
          search := .ok [{ text := str "vd", intent_id := "vi", score := 92/100 }] } =
      .ok (some
        { id := "vi"
          confidence := pyMin (95/100) ((92/100) * (11/10))
          method := .vector
          metadata :=
            [("vector_score", .numV (92/100)),
             ("source_text", .strV "vd"),
             ("candidates_count", .natV 1),
             ("confidence_adjusted", .boolV true)] }) ∧
    (pyMin ((95:ℚ)/100) ((92/100) * (11/10)) < 1) := by
  constructor
  · simp only [vector_search]
    norm_num [pyMin]
    decide
  · have h := c7_vector_confidence_boost
      { vector_search_enabled := true
        embed_text := .ok (some [1])
        search := .ok [{ text := str "vd", intent_id := "vi", score := 92/100 }] }
      { id := "vi"
        confidence := pyMin (95/100) ((92/100) * (11/10))
        method := .vector
        metadata :=
          [("vector_score", .numV (92/100)),
           ("source_text", .strV "vd"),
           ("candidates_count", .natV 1),
           ("confidence_adjusted", .boolV true)] }
      (by simp only [vector_search]; norm_num [pyMin]; decide)
    rcases h with ⟨best, rest, hs, _hconf, _hm, hlt⟩
    exact hlt

/-- A concrete rule with a multi-word keyword, used in C10. -/
def c10Rule : IntentRule :=
  { intent_id := "tuition_inquiry"
    keywords := [str "học phí"]
    patterns := []
    weight := 1 }

/-- **C10** — The exact-word bonus never fires for multi-word keywords:
`_calculate_score` counts a matched keyword as exact only when the whole
keyword is one of the whitespace-split tokens of the query.  Hence (1) keywords
containing whitespace never change the exact-word count, (2) the lowercased
form of such a keyword is never a token of any query, (3) the multi-word
keyword `"học phí"` occurring verbatim in `"học phí cao"` earns no 5% bonus
(the score stays at the plain `0.4·weight`), and (4) a single-word keyword
immediately followed by punctuation (`"fee"` in `"fee?"`) matches as a
substring but is not counted as exact. -/
theorem c10_exact_word_token_only :
    (∀ (mk : List Str) (q : Str),
        exactWordCount mk q =
          exactWordCount (mk.filter (fun kw => !kw.any isSpaceChar)) q) ∧
    (∀ (kw : Str) (q : Str), kw.any isSpaceChar = true →
        lowerStr kw ∉ splitWs (lowerStr q)) ∧
    (calculate_score c10Rule [str "học phí"] [] (str "học phí cao") = 2/5 ∧
      containsSub (str "học phí") (str "học phí cao") = true ∧
      exactWordCount [str "học phí"] (str "học phí cao") = 0) ∧
    (containsSub (str "fee") (str "fee?") = true ∧
      exactWordCount [str "fee"] (str "fee?") = 0) := by
  refine ⟨?_, space_keyword_not_token,
    ⟨by with_unfolding_all decide, by decide, by decide⟩, by decide, by decide⟩
  intro mk q
  simp only [exactWordCount, List.filter_filter]
  induction mk with
  | nil => rfl
  | cons kw rest ih =>
    simp only [List.filter_cons]
    by_cases hmem : lowerStr kw ∈ splitWs (lowerStr q)
    · have hns : kw.any isSpaceChar = false := by
        by_contra hx
        exact space_keyword_not_token kw q (by simpa using hx) hmem
      simpa [hmem, hns] using ih
    · simpa [hmem] using ih

/-- Witness for C10: the multi-word keyword hypothesis of part (2) discharged
at `"học phí"` against the query `"học phí cao"`. -/
theorem c10_exact_word_token_only_witness :
    (str "học phí").any isSpaceChar = true ∧
      lowerStr (str "học phí") ∉ splitWs (lowerStr (str "học phí cao")) :=
  ⟨by decide,
    c10_exact_word_token_only.2.1 (str "học phí") (str "học phí cao") (by decide)⟩

/-- **C1** — Arbitration follows the six-priority order, first match wins,
for every configuration and every pair of an optional rule match and an
optional vector result:
(1) the rule result with method `RULE` when the rule score meets
`early_exit_threshold`; (2) else, when the vector confidence meets
`vector_confidence_threshold`: if the rule score also meets
`rule_high_confidence_threshold` the strictly higher raw score wins (the
vector result as is, or the rule result labelled `HYBRID`), and with no such
rule score the vector result; (3) else the rule result with method `RULE` at
`rule_high_confidence_threshold`; (4) else at
`rule_medium_confidence_threshold`; (5) else any present vector result;
(6) otherwise the fallback result with id `"unknown"`, method `FALLBACK` and
confidence `0.2`. -/
theorem c1_arbitration_priority (cfg : HybridConfig) (rm : Option RuleMatch)
    (vr : Option IntentResult) :
    (∀ m, rm = some m → m.score ≥ cfg.early_exit_threshold →
      select_best_result cfg rm vr = create_rule_result m .rule) ∧
    ((∀ m, rm = some m → m.score < cfg.early_exit_threshold) →
      ∀ v, vr = some v → v.confidence ≥ cfg.vector_confidence_threshold →
        (∀ m, rm = some m → m.score ≥ cfg.rule_high_confidence_threshold →
          (v.confidence > m.score → select_best_result cfg rm vr = v) ∧
          (m.score > v.confidence →
            select_best_result cfg rm vr = create_rule_result m .hybrid)) ∧
        ((∀ m, rm = some m → m.score < cfg.rule_high_confidence_threshold) →
          select_best_result cfg rm vr = v)) ∧
    ((∀ m, rm = some m → m.score < cfg.early_exit_threshold) →
      (∀ v, vr = some v → v.confidence < cfg.vector_confidence_threshold) →
      ∀ m, rm = some m → m.score ≥ cfg.rule_high_confidence_threshold →
        select_best_result cfg rm vr = create_rule_result m .rule) ∧
    ((∀ m, rm = some m → m.score < cfg.early_exit_threshold) →
      (∀ v, vr = some v → v.confidence < cfg.vector_confidence_threshold) →
      (∀ m, rm = some m → m.score < cfg.rule_high_confidence_threshold) →
      ∀ m, rm = some m → m.score ≥ cfg.rule_medium_confidence_threshold →
        select_best_result cfg rm vr = create_rule_result m .rule) ∧
    ((∀ m, rm = some m → m.score < cfg.early_exit_threshold) →
      (∀ v, vr = some v → v.confidence < cfg.vector_confidence_threshold) →
      (∀ m, rm = some m → m.score < cfg.rule_high_confidence_threshold) →
      (∀ m, rm = some m → m.score < cfg.rule_medium_confidence_threshold) →
      ∀ v, vr = some v → select_best_result cfg rm vr = v) ∧
    ((∀ m, rm = some m → m.score < cfg.early_exit_threshold) →
      (∀ m, rm = some m → m.score < cfg.rule_high_confidence_threshold) →
      (∀ m, rm = some m → m.score < cfg.rule_medium_confidence_threshold) →
      vr = none →
        select_best_result cfg rm vr = create_fallback_result (2/10) .fallback ∧
        (select_best_result cfg rm vr).id = "unknown" ∧
        (select_best_result cfg rm vr).method = .fallback ∧
        (select_best_result cfg rm vr).confidence = 2/10) := by
  refine ⟨?_, ?_, ?_, ?_, ?_, ?_⟩
  · intro m hm hsc
    subst hm
    cases vr with
    | none => simp [select_best_result, hsc]
    | some v => simp [select_best_result, hsc]
  · intro hne v hv hvc
    subst hv
    cases rm with
    | none =>
      refine ⟨fun m hm => by simp at hm, fun _ => by simp [select_best_result]⟩
    | some m =>
      have hlt : m.score < cfg.early_exit_threshold := hne m rfl
      refine ⟨?_, ?_⟩
      · intro m' hm' hhigh
        rw [Option.some.injEq] at hm'
        subst hm'
        refine ⟨?_, ?_⟩
        · intro hgt
          simp [select_best_result, not_le.mpr hlt, hvc, hhigh, hgt]
        · intro hgt
          simp [select_best_result, not_le.mpr hlt, hvc, hhigh, not_lt.mpr (le_of_lt hgt)]
      · intro hnh
        have hh : m.score < cfg.rule_high_confidence_threshold := hnh m rfl
        simp [select_best_result, not_le.mpr hlt, hvc, not_le.mpr hh]
  · intro hne hnv m hm hhigh
    subst hm
    have hlt : m.score < cfg.early_exit_threshold := hne m rfl
    cases vr with
    | none => simp [select_best_result, not_le.mpr hlt, hhigh]
    | some v =>
      have hv : v.confidence < cfg.vector_confidence_threshold := hnv v rfl
      simp [select_best_result, not_le.mpr hlt, not_le.mpr hv, hhigh]
  · intro hne hnv hnh m hm hmed
    subst hm
    have hlt : m.score < cfg.early_exit_threshold := hne m rfl
    have hh : m.score < cfg.rule_high_confidence_threshold := hnh m rfl
    cases vr with
    | none =>
      simp [select_best_result, not_le.mpr hlt, not_le.mpr hh, hmed]
    | some v =>
      have hv : v.confidence < cfg.vector_confidence_threshold := hnv v rfl
      simp [select_best_result, not_le.mpr hlt, not_le.mpr hv, not_le.mpr hh, hmed]
  · intro hne hnv hnh hnm v hv
    subst hv
    cases rm with
    | none => simp [select_best_result]
    | some m =>
      have hlt : m.score < cfg.early_exit_threshold := hne m rfl
      have hvc : v.confidence < cfg.vector_confidence_threshold := hnv v rfl
      have hh : m.score < cfg.rule_high_confidence_threshold := hnh m rfl
      have hm : m.score < cfg.rule_medium_confidence_threshold := hnm m rfl
      simp [select_best_result, not_le.mpr hlt, not_le.mpr hvc, not_le.mpr hh,
        not_le.mpr hm]
  · intro hne hnh hnm hv
    subst hv
    cases rm with
    | none => exact ⟨rfl, rfl, rfl, rfl⟩
    | some m =>
      have hlt : m.score < cfg.early_exit_threshold := hne m rfl
      have hh : m.score < cfg.rule_high_confidence_threshold := hnh m rfl
      have hm : m.score < cfg.rule_medium_confidence_threshold := hnm m rfl
      have hEq : select_best_result cfg (some m) none =
          create_fallback_result (2/10) .fallback := by
        simp [select_best_result, not_le.mpr hlt, not_le.mpr hh, not_le.mpr hm]
      exact ⟨hEq, by rw [hEq]; rfl, by rw [hEq]; rfl, by rw [hEq]; rfl⟩

/-- A concrete high-scoring rule match used to witness C1. -/
def c1Match : RuleMatch :=
  { intent_id := "tuition_inquiry"
    score := 9/10
    matched_keywords := [str "fee"]
    matched_patterns := []
    weight := 1 }

/-- Witness for C1: priority 1 fires at the default configuration for a rule
match with score `0.9 ≥ 0.8`. -/
theorem c1_arbitration_priority_witness :
    c1Match.score ≥ ({} : HybridConfig).early_exit_threshold ∧
      select_best_result {} (some c1Match) none = create_rule_result c1Match .rule :=
  ⟨by show (9:ℚ)/10 ≥ 8/10; norm_num,
    (c1_arbitration_priority {} (some c1Match) none).1 c1Match rfl
      (by show (9:ℚ)/10 ≥ 8/10; norm_num)⟩

/-- **C2** — `detect_intent` never raises and guarantees the universal
fallback: (A) for every configuration and dependency bundle the handled result
is a plain `IntentResult` — the body either succeeds with it or raises and the
catch-all turns the exception into the fallback result with confidence `0.1`;
(B) when the cache read, the rule detector and the embedding call all raise,
the returned result is that fallback: id `"unknown"`, method `FALLBACK`, low
confidence (`≤ 0.3`) and `metadata["fallback"] = true`; (C) when every stage
succeeds but produces nothing (cache miss, relevant query, no rule match, no
vector result), the result is the arbitration fallback with confidence `0.2`
and the same shape. -/
theorem c2_detect_intent_never_raises (cfg : HybridConfig) (deps : HybridDeps) :
    (∃ r : IntentResult, detect_intent cfg deps = r ∧
      (detect_intent_body cfg deps = .ok r ∨
        (detect_intent_body cfg deps = .error () ∧
          r = create_fallback_result (1/10) .fallback))) ∧
    (cfg.enable_caching = true → deps.has_cache_service = true →
      deps.cache_get = .error () → deps.rule_detect = .error () →
      deps.vector.embed_text = .error () →
      detect_intent cfg deps = create_fallback_result (1/10) .fallback ∧
      (detect_intent cfg deps).id = "unknown" ∧
      (detect_intent cfg deps).method = .fallback ∧
      (detect_intent cfg deps).confidence ≤ 3/10 ∧
      (detect_intent cfg deps).metaLookup "fallback" = some (.boolV true)) ∧
    (deps.cache_get = .ok none → is_irrelevant_query deps.query = false →
      deps.rule_detect = .ok none → vector_search deps.vector = .ok none →
      deps.cache_set = .ok () →
      detect_intent cfg deps = create_fallback_result (2/10) .fallback ∧
      (detect_intent cfg deps).id = "unknown" ∧
      (detect_intent cfg deps).method = .fallback ∧
      (detect_intent cfg deps).confidence ≤ 3/10 ∧
      (detect_intent cfg deps).metaLookup "fallback" = some (.boolV true)) := by
  refine ⟨?_, ?_, ?_⟩
  · cases hb : detect_intent_body cfg deps with
    | ok r =>
      exact ⟨r, by simp [detect_intent, hb], Or.inl rfl⟩
    | error e =>
      cases e
      exact ⟨create_fallback_result (1/10) .fallback, by simp [detect_intent, hb],
        Or.inr ⟨rfl, rfl⟩⟩
  · intro hec hhc hg hr he
    have hb : detect_intent_body cfg deps = .error () := by
      unfold detect_intent_body
      rw [hec, hhc, hg]
      rfl
    have hd : detect_intent cfg deps = create_fallback_result (1/10) .fallback := by
      simp [detect_intent, hb]
    refine ⟨hd, ?_, ?_, ?_, ?_⟩ <;> rw [hd]
    · rfl
    · rfl
    · show (1:ℚ)/10 ≤ 3/10
      norm_num
    · rfl
  · intro hg hirr hr hv hset
    have hb : detect_intent_body cfg deps =
        .ok (create_fallback_result (2/10) .fallback) := by
      have hsel : select_best_result cfg none none =
          create_fallback_result (2/10) .fallback := rfl
      unfold detect_intent_body
      rw [hg]
      simp only [bind, Except.bind, pure, Except.pure, hirr, hr, hv, hsel, hset,
        Option.all]
      split_ifs <;> first | rfl | (exfalso; simp_all)
    have hd : detect_intent cfg deps = create_fallback_result (2/10) .fallback := by
      simp [detect_intent, hb]
    refine ⟨hd, ?_, ?_, ?_, ?_⟩ <;> rw [hd]
    · rfl
    · rfl
    · show (2:ℚ)/10 ≤ 3/10
      norm_num
    · rfl

/-- A dependency bundle in which the cache, the rule detector and the
embedding service are all raising, used to witness C2. -/
def c2Deps : HybridDeps :=
  { query := str "tuition fee"
    has_cache_service := true
    cache_get := .error ()
    rule_detect := .error ()
    vector := { vector_search_enabled := true
                embed_text := .error ()
                search := .error () }
    cache_set := .error () }

/-- Witness for C2: with the default configuration and every collaborator
raising, `detect_intent` returns the universal fallback result. -/
theorem c2_detect_intent_never_raises_witness :
    ({} : HybridConfig).enable_caching = true ∧ c2Deps.has_cache_service = true ∧
      c2Deps.cache_get = .error () ∧ c2Deps.rule_detect = .error () ∧
      detect_intent {} c2Deps = create_fallback_result (1/10) .fallback :=
  ⟨rfl, rfl, rfl, rfl,
    ((c2_detect_intent_never_raises {} c2Deps).2.1 rfl rfl rfl rfl rfl).1⟩

/-- Looking up an index in an index-keyed association list built by mapping
over a completion order always returns that index's own value. -/
lemma lookup_map_pair (f : Nat → IntentResult) :
    ∀ (l : List Nat) (i : Nat), i ∈ l →
      (l.map (fun j => (j, f j))).lookup i = some (f i) := by
  intro l
  induction l with
  | nil => simp
  | cons j t ih =>
    intro i hi
    simp only [List.map_cons, List.lookup]
    by_cases hij : i = j
    · subst hij
      simp
    · have hbeq : (i == j) = false := by simpa using hij
      rw [hbeq]
      have hit : i ∈ t := by
        rcases List.mem_cons.mp hi with h | h
        · exact absurd h hij
        · exact h
      exact ih i hit

/-- A `filterMap` whose function is everywhere `some` is a `map`. -/
lemma filterMap_eq_map_of_forall {α β : Type} :
    ∀ (l : List α) (g : α → Option β) (f : α → β),
      (∀ i ∈ l, g i = some (f i)) → l.filterMap g = l.map f := by
  intro l g f
  induction l with
  | nil => intro _; rfl
  | cons a t ih =>
    intro h
    rw [List.filterMap_cons, h a (List.mem_cons_self a t), List.map_cons,
      ih (fun i hi => h i (List.mem_cons_of_mem a hi))]

/-- **C9** — Batch detection preserves input order and isolates failures: for
every per-task outcome function, every `max_concurrent ≥ 1` and every
completion order (any permutation of the task indices), `detect_batch_queries`
returns exactly one result per input query, and the i-th returned result is
the i-th query's own outcome — its detection result, or the universal
fallback when that task failed — regardless of the completion order. -/
theorem c9_detect_batch_order_and_isolation
    (outcome : Nat → Except Unit IntentResult) (queries : List String)
    (max_concurrent : Nat) (order : List Nat)
    (hmc : 1 ≤ max_concurrent)
    (hperm : order.Perm (List.range queries.length)) :
    (detect_batch_queries outcome queries max_concurrent order).length =
        queries.length ∧
      ∀ i, i < queries.length →
        (detect_batch_queries outcome queries max_concurrent order)[i]? =
          some (match outcome i with
                | .ok r => r
                | .error _ => create_fallback_result (1/10) .fallback) := by
  have heval : detect_batch_queries outcome queries max_concurrent order =
      (List.range queries.length).map (fun i =>
        match outcome i with
        | .ok r => r
        | .error _ => create_fallback_result (1/10) .fallback) := by
    unfold detect_batch_queries
    refine filterMap_eq_map_of_forall _ _ _ ?_
    intro i hi
    exact lookup_map_pair _ order i (hperm.mem_iff.mpr (by simpa using hi))
  constructor
  · rw [heval, List.length_map, List.length_range]
  · intro i hi
    rw [heval, List.getElem?_map, List.getElem?_range hi]
    rfl

/-- A batch of three tasks whose middle task fails, used to witness C9. -/
def c9Outcome : Nat → Except Unit IntentResult := fun i =>
  if i = 1 then .error ()
  else .ok { id := toString i, confidence := 1, method := .rule }

/-- Witness for C9: three queries, concurrency bound `2`, completion order
`b, a, c`; the batch still returns three results in input order and the
failing middle query degrades to the fallback alone. -/
theorem c9_detect_batch_order_and_isolation_witness :
    (1 ≤ 2 ∧ ([1, 0, 2] : List Nat).Perm (List.range 3)) ∧
      (detect_batch_queries c9Outcome ["a", "b", "c"] 2 [1, 0, 2]).length = 3 ∧
      (detect_batch_queries c9Outcome ["a", "b", "c"] 2 [1, 0, 2])[1]? =
        some (create_fallback_result (1/10) .fallback) := by
  have h := c9_detect_batch_order_and_isolation c9Outcome ["a", "b", "c"] 2
    [1, 0, 2] (by norm_num) (by decide)
  refine ⟨⟨by norm_num, by decide⟩, ?_, ?_⟩
  · simpa using h.1
  · have h2 := h.2 1 (by norm_num)
    simpa [c9Outcome] using h2

/-- Decomposition of a successful `find?`: the list splits at the found
element, everything before it failing the predicate. -/
lemma find?_decomp {α : Type} (p : α → Bool) :
    ∀ (l : List α) (x : α), l.find? p = some x →
      ∃ l1 l2, l = l1 ++ x :: l2 ∧ (∀ y ∈ l1, p y = false) ∧ p x = true := by
  intro l
  induction l with
  | nil =>
    intro x h
    simp [List.find?] at h
  | cons a t ih =>
    intro x h
    cases hpa : p a with
    | true =>
      rw [List.find?_cons_of_pos (l := t) hpa, Option.some.injEq] at h
      subst h
      exact ⟨[], t, rfl, by simp, hpa⟩
    | false =>
      rw [List.find?_cons_of_neg (l := t) (by simp [hpa])] at h
      obtain ⟨l1, l2, hl, hf, hp⟩ := ih x h
      refine ⟨a :: l1, l2, by simp [hl], ?_, hp⟩
      intro y hy
      rcases List.mem_cons.mp hy with hya | hyt
      · subst hya
        exact hpa
      · exact hf y hyt

/-- C8 (amended): in a cache with at least two slots holding exactly
`max_size` entries with pairwise distinct keys, after a `get` hit on key `k`
a subsequent `set` of a fresh key `kn` evicts exactly one entry, and the
evicted entry is the head of the post-`get` recency list, which is never the
just-read key `k`; the cache stays at `max_size` entries and `k` survives.
The original claim, with no lower bound on `max_size`, is refuted by
`c8_lru_eviction_counterexample`. -/
theorem c8_lru_eviction_by_access_order {α : Type} (now now2 : ℚ) (k kn : String)
    (v v0 : α) (exp : ℚ) (ttl : Option ℚ) (s : MemoryCacheState α)
    (hnd : (s.entries.map (fun e => e.1)).Nodup)
    (hfull : s.entries.length = s.max_size)
    (hsz : 2 ≤ s.max_size)
    (hfind : s.entries.find? (fun e => e.1 == k) = some (k, v0, exp))
    (hlive : ¬ now > exp)
    (hnew : ∀ e ∈ s.entries, e.1 ≠ kn) :
    (cache_get now k s).1 = some v0 ∧
    ∃ evicted rest exp2,
      ((cache_get now k s).2).entries = evicted :: rest ∧
      (cache_set now2 kn v ttl ((cache_get now k s).2)).entries =
        rest ++ [(kn, v, exp2)] ∧
      evicted.1 ≠ k ∧
      (cache_set now2 kn v ttl ((cache_get now k s).2)).entries.length = s.max_size ∧
      k ∈ (cache_set now2 kn v ttl ((cache_get now k s).2)).entries.map
        (fun e => e.1) := by
  obtain ⟨l1, l2, hdecomp, hl1, hpk⟩ := find?_decomp _ s.entries (k, v0, exp) hfind
  have hl1' : ∀ b ∈ l1, ¬ ((fun (e : String × α × ℚ) => e.1 == k) b) = true := by
    intro b hb
    simp [hl1 b hb]
  have herase : s.entries.eraseP (fun e => e.1 == k) = l1 ++ l2 := by
    rw [hdecomp, List.eraseP_append_right _ hl1',
      List.eraseP_cons_of_pos (p := fun (e : String × α × ℚ) => e.1 == k) hpk]
  have hget1 : (cache_get now k s).1 = some v0 := by
    simp [cache_get, hfind, hlive]
  have hs1 : ((cache_get now k s).2).entries = (l1 ++ l2) ++ [(k, v0, exp)] := by
    simp [cache_get, hfind, hlive, herase]
  have hkeys : (s.entries.map (fun e => e.1)) =
      (l1.map (fun e => e.1)) ++ k :: (l2.map (fun e => e.1)) := by
    rw [hdecomp]
    simp
  have hknotl : k ∉ (l1.map (fun e => e.1)) ++ (l2.map (fun e => e.1)) := by
    have hnd2 := hnd
    rw [hkeys] at hnd2
    intro hmem
    rcases List.mem_append.mp hmem with h | h
    · exact (List.disjoint_of_nodup_append hnd2) h (List.mem_cons_self _ _)
    · have h2 := (List.nodup_append.mp hnd2).2.1
      exact (List.nodup_cons.mp h2).1 h
  have hlen12 : l1.length + l2.length + 1 = s.max_size := by
    have hx : s.entries.length = l1.length + l2.length + 1 := by
      rw [hdecomp]
      simp
      omega
    omega
  obtain ⟨e0, rest0, h12⟩ : ∃ e0 rest0, l1 ++ l2 = e0 :: rest0 := by
    cases hc : l1 ++ l2 with
    | nil =>
      have h1 := List.append_eq_nil.mp hc
      rw [h1.1, h1.2] at hlen12
      simp at hlen12
      omega
    | cons a b => exact ⟨a, b, rfl⟩
  have hs1' : ((cache_get now k s).2).entries = e0 :: (rest0 ++ [(k, v0, exp)]) := by
    rw [hs1, h12]
    simp
  have hmemk : (k, v0, exp) ∈ s.entries := by
    rw [hdecomp]
    exact List.mem_append.mpr (Or.inr (List.mem_cons_self _ _))
  have hnone : (((cache_get now k s).2).entries.find?
      (fun e => e.1 == kn)).isNone := by
    rw [hs1, Option.isNone_iff_eq_none, List.find?_eq_none]
    intro x hx
    have hxs : x ∈ s.entries := by
      rcases List.mem_append.mp hx with h | h
      · rcases List.mem_append.mp h with h1 | h2
        · rw [hdecomp]
          exact List.mem_append.mpr (Or.inl h1)
        · rw [hdecomp]
          exact List.mem_append.mpr (Or.inr (List.mem_cons_of_mem _ h2))
      · have hxe : x = (k, v0, exp) := by simpa using h
        rw [hxe]
        exact hmemk
    simp [hnew x hxs]
  have hs1len : ((cache_get now k s).2).entries.length = s.max_size := by
    rw [hs1]
    simp [List.length_append]
    omega
  have hms : ((cache_get now k s).2).max_size = s.max_size := by
    simp [cache_get, hfind, hlive]
  have hcond : (((cache_get now k s).2).entries.find?
        (fun e => e.1 == kn)).isNone = true ∧
      ((cache_get now k s).2).entries.length ≥ ((cache_get now k s).2).max_size := by
    refine ⟨hnone, ?_⟩
    rw [hs1len, hms]
  have hset : (cache_set now2 kn v ttl ((cache_get now k s).2)).entries =
      (rest0 ++ [(k, v0, exp)]) ++
        [(kn, v, now2 + (match ttl with
          | none => ((cache_get now k s).2).default_ttl
          | some t => if t = 0 then ((cache_get now k s).2).default_ttl else t))] := by
    unfold cache_set
    rw [if_pos hcond]
    rw [hs1']
  refine ⟨hget1, e0, rest0 ++ [(k, v0, exp)], _, hs1', hset, ?_, ?_, ?_⟩
  · have he0 : e0 ∈ l1 ++ l2 := by
      rw [h12]
      exact List.mem_cons_self _ _
    intro hk
    apply hknotl
    have hmm : e0.1 ∈ (l1 ++ l2).map (fun e => e.1) := List.mem_map_of_mem _ he0
    rw [hk] at hmm
    simpa using hmm
  · rw [hset]
    simp
    have h1 : l1.length + l2.length = rest0.length + 1 := by
      have h2 := congrArg List.length h12
      simpa using h2
    omega
  · rw [hset]
    simp

/-- Concrete two-entry cache used to witness the LRU theorem. -/
def c8WitState : MemoryCacheState ℚ :=
  { max_size := 2, default_ttl := 600,
    entries := [("a", (1 : ℚ), 100), ("b", (2 : ℚ), 100)] }

/-- C8 witness: the amended theorem applied to a concrete two-entry cache:
reading "a" then inserting "c" evicts "b", not the just-read "a". -/
theorem c8_lru_eviction_by_access_order_witness :
    (cache_get 0 "a" c8WitState).1 = some (1 : ℚ) ∧
    ∃ evicted rest exp2,
      ((cache_get 0 "a" c8WitState).2).entries = evicted :: rest ∧
      (cache_set 5 "c" (9 : ℚ) none ((cache_get 0 "a" c8WitState).2)).entries =
        rest ++ [("c", (9 : ℚ), exp2)] ∧
      evicted.1 ≠ "a" ∧
      (cache_set 5 "c" (9 : ℚ) none ((cache_get 0 "a" c8WitState).2)).entries.length =
        c8WitState.max_size ∧
      "a" ∈ (cache_set 5 "c" (9 : ℚ) none
        ((cache_get 0 "a" c8WitState).2)).entries.map (fun e => e.1) := by
  exact c8_lru_eviction_by_access_order 0 5 "a" "c" (9 : ℚ) (1 : ℚ) 100 none
    c8WitState (by decide) (by rfl) (by decide) (by rfl)
    (by with_unfolding_all decide) (by decide)

/-- Concrete one-entry cache: the key just read by get is nevertheless evicted. -/
def c8CexState : MemoryCacheState ℚ :=
  { max_size := 1, default_ttl := 600, entries := [("a", (5 : ℚ), 100)] }

/-- C8 counterexample: with `max_size = 1` the entry just read by `get` IS
the one evicted by the next insertion, refuting the claim that "an entry read
by get immediately before the insertion is never the one evicted". -/
theorem c8_lru_eviction_counterexample :
    c8CexState.entries.length = c8CexState.max_size ∧
    (cache_get 0 "a" c8CexState).1 = some (5 : ℚ) ∧
    (∀ e ∈ c8CexState.entries, e.1 ≠ "b") ∧
    (cache_set 0 "b" (7 : ℚ) none
      ((cache_get 0 "a" c8CexState).2)).entries.map (fun e => e.1) = ["b"] := by
  with_unfolding_all decide

/-- C5 counterexample: "student" is in the `domain_keywords` frozenset and
occurs in the query "student football", whose stripped length is at least 3,
yet `is_irrelevant_query` returns true (the code consults
`extract_academic_context`, never `domain_keywords`, and "football" hits an
off-topic pattern) — refuting "domain-context keywords always override toward
relevant". -/
theorem c5_domain_keyword_counterexample :
    domainKeywords.contains (str "student") = true ∧
    containsSub (str "student") (str "student football") = true ∧
    3 ≤ (stripWs (str "student football")).length ∧
    is_irrelevant_query (str "student football") = true := by
  with_unfolding_all decide

/-- C5 (amended): `is_irrelevant_query` returns true exactly when the text is
empty or its stripped form is shorter than 3 characters, or the
academic-context extraction finds nothing and an off-topic pattern matches; it
is the academic-context patterns, not the `domain_keywords` set, that override
toward relevant. -/
theorem c5_irrelevance_characterised (text : Str) :
    is_irrelevant_query text = true ↔
      (text.isEmpty = true ∨ (stripWs text).length < 3) ∨
      ((extract_academic_context text).anyNonempty = false ∧
        irrelevantPatterns.any (fun p => patSearch p text) = true) := by
  unfold is_irrelevant_query
  split_ifs with h1 h2 h3 <;> simp_all

def c3RuleAlpha : IntentRule :=
  { intent_id := "alpha", keywords := [str "alpha"], patterns := [], weight := 3/2 }

def c3RuleZulu : IntentRule :=
  { intent_id := "zulu", keywords := [str "zulu"], patterns := [], weight := 2 }

def c3Query : Str := str "alpha and then much later zulu"

def c3Matches : List RuleMatch :=
  [c3RuleAlpha, c3RuleZulu].filterMap
    (fun r => match_rule r (normalizeStr (clean_query c3Query)) c3Query)

/-- Modelled from the claim's words (C3): the legacy comparator "if the two
first-match positions differ by more than 20 characters, the earlier position
wins; otherwise the higher score wins; equal scores keep stable order", as the
before-or-equal predicate of a stable sort. -/
def claimCompareLE (a b : RuleMatch) : Bool :=
  if 20 < ((a.position : ℤ) - (b.position : ℤ)).natAbs then
    a.position ≤ b.position
  else
    b.score ≤ a.score

/-- Modelled from the claim's words (C3): sort the matches with the claimed
comparator, take the top one, and if it scores below 0.6 return the globally
highest-scoring match instead. -/
def claimTieBreak (ms : List RuleMatch) : Option RuleMatch :=
  match ms with
  | [] => none
  | [m] => some m
  | _ =>
    match ms.mergeSort claimCompareLE with
    | [] => none
    | best :: _ =>
      if best.score < 3/5 then
        some (ms.foldl (fun acc m => if acc.score < m.score then m else acc) best)
      else some best

set_option maxRecDepth 4000 in
/-- C3 counterexample: on the query "alpha and then much later zulu" two rules
match with nonzero scores at positions 0 and 26 (distance > 20), the earlier
match scores 0.63 ≥ 0.6, so the claimed comparator returns the "alpha" match —
but the current detector (`RuleBasedDetectorImpl.detect`) has no positional
comparator at all and returns the higher-scoring "zulu" match. -/
theorem c3_tie_break_counterexample :
    (c3Matches.map RuleMatch.intent_id = ["alpha", "zulu"]) ∧
    (∀ m ∈ c3Matches, 0 < m.score) ∧
    ((match c3Matches with
      | [ma, mz] =>
        decide (20 < ((ma.position : ℤ) - (mz.position : ℤ)).natAbs) &&
          decide (ma.position < mz.position) && decide ((3 : ℚ)/5 ≤ ma.score)
      | _ => false) = true) ∧
    ((claimTieBreak c3Matches).map RuleMatch.intent_id = some "alpha") ∧
    ((rule_detect [c3RuleAlpha, c3RuleZulu] (9/10) c3Query).map
      RuleMatch.intent_id = some "zulu") := by
  with_unfolding_all decide

/-- The scan of `RuleBasedDetectorImpl.detect` is a running-maximum scan: when
no rule reaches the early-exit threshold, whatever it returns scores at least
the running best and at least every match of every enabled rule scanned. -/
lemma detectScan_spec (nq oq : Str) (threshold : ℚ) :
    ∀ (rules : List IntentRule) (best : Option RuleMatch) (bs : ℚ),
      (∀ r ∈ rules, ∀ m', match_rule r nq oq = some m' → m'.score < threshold) →
      (∀ b, best = some b → bs ≤ b.score) →
      ∀ m, detectScan nq oq threshold rules best bs = some m →
        bs ≤ m.score ∧
        ∀ r ∈ rules, r.enabled = true →
          ∀ m', match_rule r nq oq = some m' → m'.score ≤ m.score := by
  intro rules
  induction rules with
  | nil =>
    intro best bs hno hbest m hm
    refine ⟨hbest m hm, ?_⟩
    intro r hr
    simp at hr
  | cons r rs ih =>
    intro best bs hno hbest m hm
    by_cases he : r.enabled
    · cases hmr : match_rule r nq oq with
      | none =>
        simp only [detectScan, he, hmr, Bool.not_true, Bool.false_eq_true,
          if_false] at hm
        obtain ⟨h1, h2⟩ := ih best bs (fun r0 h0 => hno r0 (List.mem_cons_of_mem _ h0))
          hbest m hm
        refine ⟨h1, ?_⟩
        intro r0 hr0 he0 m' hm'
        rcases List.mem_cons.mp hr0 with hr0 | hr0
        · subst hr0
          rw [hmr] at hm'
          exact absurd hm' (by simp)
        · exact h2 r0 hr0 he0 m' hm'
      | some mr =>
        simp only [detectScan, he, hmr, Bool.not_true, Bool.false_eq_true,
          if_false] at hm
        have hlt : mr.score < threshold :=
          hno r (List.mem_cons_self _ _) mr hmr
        by_cases hgt : mr.score > bs
        · rw [if_pos hgt, if_neg (by exact fun hge => absurd hlt (not_lt.mpr hge))] at hm
          obtain ⟨h1, h2⟩ := ih (some mr) mr.score
            (fun r0 h0 => hno r0 (List.mem_cons_of_mem _ h0))
            (fun b hb => by cases hb; exact le_refl _) m hm
          refine ⟨le_of_lt (lt_of_lt_of_le hgt h1), ?_⟩
          intro r0 hr0 he0 m' hm'
          rcases List.mem_cons.mp hr0 with hr0 | hr0
          · subst hr0
            rw [hmr] at hm'
            cases hm'
            exact h1
          · exact h2 r0 hr0 he0 m' hm'
        · rw [if_neg hgt] at hm
          obtain ⟨h1, h2⟩ := ih best bs (fun r0 h0 => hno r0 (List.mem_cons_of_mem _ h0))
            hbest m hm
          refine ⟨h1, ?_⟩
          intro r0 hr0 he0 m' hm'
          rcases List.mem_cons.mp hr0 with hr0 | hr0
          · subst hr0
            rw [hmr] at hm'
            cases hm'
            exact le_trans (not_lt.mp hgt) h1
          · exact h2 r0 hr0 he0 m' hm'
    · rw [Bool.not_eq_true] at he
      simp only [detectScan, he, Bool.not_false, if_true] at hm
      obtain ⟨h1, h2⟩ := ih best bs (fun r0 h0 => hno r0 (List.mem_cons_of_mem _ h0))
        hbest m hm
      refine ⟨h1, ?_⟩
      intro r0 hr0 he0 m' hm'
      rcases List.mem_cons.mp hr0 with hr0 | hr0
      · subst hr0
        rw [he0] at he
        exact absurd he (by simp)
      · exact h2 r0 hr0 he0 m' hm'

/-- C3 (amended): the current rule detector ignores match positions entirely;
when no match reaches the early-exit threshold, the returned match is a
maximum-score match: every match of every enabled rule scores at most the
returned score.  The claimed position-distance comparator semantics belongs to
the legacy `old_detect.py` and is refuted on the current detector by
`c3_tie_break_counterexample`. -/
theorem c3_rule_detect_returns_max (rules : List IntentRule) (threshold : ℚ) (query : Str)
    (m : RuleMatch)
    (hres : rule_detect rules threshold query = some m)
    (hno : ∀ r ∈ rules, ∀ m',
      match_rule r (normalizeStr (clean_query query)) query = some m' →
        m'.score < threshold) :
    ∀ r ∈ rules, r.enabled = true →
      ∀ m', match_rule r (normalizeStr (clean_query query)) query = some m' →
        m'.score ≤ m.score := by
  unfold rule_detect at hres
  have hperm : ∀ r, r ∈ sortRules rules ↔ r ∈ rules := by
    intro r
    unfold sortRules
    exact List.mem_mergeSort
  obtain ⟨h1, h2⟩ := detectScan_spec (normalizeStr (clean_query query)) query threshold
    (sortRules rules) none 0
    (fun r0 h0 => hno r0 ((hperm r0).mp h0))
    (fun b hb => by cases hb) m hres
  intro r hr he m' hm'
  exact h2 r ((hperm r).mpr hr) he m' hm'
def c3MatchAlpha : RuleMatch :=
  { intent_id := "alpha", score := 63/100, matched_keywords := [str "alpha"],
    matched_patterns := [], weight := 3/2, position := 0,
    rule_metadata := [("rule_priority", "medium"), ("rule_description", "")] }

def c3MatchZulu : RuleMatch :=
  { intent_id := "zulu", score := 21/25, matched_keywords := [str "zulu"],
    matched_patterns := [], weight := 2, position := 26,
    rule_metadata := [("rule_priority", "medium"), ("rule_description", "")] }

set_option maxRecDepth 4000 in
/-- C3 witness: the amended theorem applied to the two concrete rules of the
counterexample with threshold 0.9 (no early exit): the returned "zulu" match
dominates both matches' scores. -/
theorem c3_rule_detect_returns_max_witness :
    rule_detect [c3RuleAlpha, c3RuleZulu] (9/10) c3Query = some c3MatchZulu ∧
    ∀ r ∈ [c3RuleAlpha, c3RuleZulu], r.enabled = true →
      ∀ m', match_rule r (normalizeStr (clean_query c3Query)) c3Query = some m' →
        m'.score ≤ c3MatchZulu.score := by
  have hA : match_rule c3RuleAlpha (normalizeStr (clean_query c3Query)) c3Query =
      some c3MatchAlpha := by
    with_unfolding_all decide
  have hZ : match_rule c3RuleZulu (normalizeStr (clean_query c3Query)) c3Query =
      some c3MatchZulu := by
    with_unfolding_all decide
  have hres : rule_detect [c3RuleAlpha, c3RuleZulu] (9/10) c3Query =
      some c3MatchZulu := by
    with_unfolding_all decide
  have hno : ∀ r ∈ [c3RuleAlpha, c3RuleZulu], ∀ m',
      match_rule r (normalizeStr (clean_query c3Query)) c3Query = some m' →
        m'.score < 9/10 := by
    intro r hr m' hm'
    rcases List.mem_cons.mp hr with h | h
    · subst h
      rw [hA, Option.some.injEq] at hm'
      subst hm'
      with_unfolding_all decide
    · rcases List.mem_cons.mp h with h2 | h2
      · subst h2
        rw [hZ, Option.some.injEq] at hm'
        subst hm'
        with_unfolding_all decide
      · simp at h2
  exact ⟨hres, c3_rule_detect_returns_max [c3RuleAlpha, c3RuleZulu] (9/10) c3Query c3MatchZulu
    hres hno⟩

set_option maxHeartbeats 1000000 in
set_option maxRecDepth 8000 in
/-- C4 counterexample: `normalize_vietnamese` is not idempotent — the
abbreviation expansion `fpt -> fpt university` re-fires on its own output, so
normalising "fpt" twice yields "fpt university university", refuting
`normalize(normalize(x)) == normalize(x)`. -/
theorem c4_normalize_idempotence_counterexample :
    normalize_vietnamese "fpt" = "fpt university" ∧
    normalize_vietnamese (normalize_vietnamese "fpt") =
      "fpt university university" ∧
    normalize_vietnamese (normalize_vietnamese "fpt") ≠
      normalize_vietnamese "fpt" := by
  with_unfolding_all decide

/-- When the matcher finds no word-bounded occurrence, the substitution is the
identity (same fuel, same preceding-character state). -/
lemma subWordGo_id_of_no_match (key rep : Str) :
    ∀ (fuel : Nat) (prev : Option Char) (s : Str),
      hasWordGo key fuel prev s = false → subWordGo key rep fuel prev s = s := by
  intro fuel
  induction fuel with
  | zero =>
    intro prev s h
    cases s with
    | nil => rfl
    | cons c cs => rfl
  | succ n ih =>
    intro prev s h
    cases s with
    | nil => rfl
    | cons c cs =>
      unfold hasWordGo at h
      unfold subWordGo
      split_ifs with hc
      · rw [if_pos hc] at h
        exact absurd h (by simp)
      · rw [if_neg hc] at h
        rw [ih (some c) cs h]

/-- Folding the abbreviation substitutions over a string none of whose keys
word-match leaves the string unchanged. -/
lemma foldl_subWord_id :
    ∀ (ps : List (Str × Str)) (y : Str),
      (∀ kv ∈ ps, hasWordMatch kv.1 none y = false) →
      ps.foldl (fun t kv => subWord kv.1 kv.2 none t) y = y := by
  intro ps
  induction ps with
  | nil =>
    intro y _
    rfl
  | cons kv rest ih =>
    intro y h
    have h1 : subWord kv.1 kv.2 none y = y :=
      subWordGo_id_of_no_match kv.1 kv.2 y.length none y
        (h kv (List.mem_cons_self _ _))
    simp only [List.foldl_cons, h1]
    exact ih y (fun kv0 h0 => h kv0 (List.mem_cons_of_mem _ h0))

/-- C4 (amended): normalisation is idempotent exactly on the inputs whose
normal form is stable — if the lowercase/whitespace-collapse stage fixes
`normalizeStr x` and no abbreviation key has a word-bounded occurrence in it,
then a second normalisation pass is the identity.  The unconditional claim is
refuted by `c4_normalize_idempotence_counterexample`: expansion values such as
"fpt university" re-contain the key "fpt". -/
theorem c4_normalize_conditionally_idempotent (x : Str)
    (hfix : collapseWs (lowerStr (normalizeStr x)) = normalizeStr x)
    (hnom : ∀ kv ∈ abbrevPairs,
      hasWordMatch kv.1 none (normalizeStr x) = false) :
    normalizeStr (normalizeStr x) = normalizeStr x := by
  conv_lhs => rw [normalizeStr]
  simp only [nfc]
  rw [hfix]
  exact foldl_subWord_id abbrevPairs _ hnom

set_option maxHeartbeats 1000000 in
set_option maxRecDepth 8000 in
/-- C4 witness: the amended theorem applied to "hello world", whose normal form
is itself and matches no abbreviation key. -/
theorem c4_normalize_conditionally_idempotent_witness :
    collapseWs (lowerStr (normalizeStr (str "hello world"))) =
      normalizeStr (str "hello world") ∧
    (∀ kv ∈ abbrevPairs,
      hasWordMatch kv.1 none (normalizeStr (str "hello world")) = false) ∧
    normalizeStr (normalizeStr (str "hello world")) =
      normalizeStr (str "hello world") := by
  refine ⟨by with_unfolding_all decide, by with_unfolding_all decide,
    c4_normalize_conditionally_idempotent (str "hello world") (by with_unfolding_all decide)
      (by with_unfolding_all decide)⟩
end AgentTuyensinh
